import Mathlib

/-!
Verification of the NIP-26 delegation module, crates/nostr/src/nips/nip26.rs.

The module is embedded shallowly:
* Rust strings become lists of characters.
* The u64 values inside conditions become natural numbers; the places where
  the 64-bit bound matters (numeric parsing overflow) check the bound 2 ^ 64
  explicitly.
* The external secp256k1 / SHA-256 capabilities (spec section 6) are injected
  as function parameters of the signing and validation operations, exactly as
  the spec describes them at the interface boundary.
* Fallible Rust functions returning Result become Except values.
-/

deriving instance DecidableEq for Except

/-- Condition variants, from enum Condition in nip26.rs. -/
inductive Condition where
  | Kind (k : Nat)
  | CreatedBefore (t : Nat)
  | CreatedAfter (t : Nat)
deriving DecidableEq, Repr

/-- Event properties relevant for delegation, from struct EventProperties. -/
structure EventProperties where
  kind : Nat
  created_time : Nat
deriving DecidableEq, Repr

/-- Tag validation errors, from enum ValidationError. -/
inductive ValidationError where
  | InvalidSignature
  | InvalidKind
  | CreatedTooEarly
  | CreatedTooLate
deriving DecidableEq, Repr

/-- Abstract error of the external secp256k1 crate.  The module never
inspects these errors, it only propagates or collapses them, so an opaque-ish
code suffices for the embedding. -/
inductive SecpError where
  | err (code : Nat)
deriving DecidableEq, Repr

/-- NIP-26 error enum, from enum Error in nip26.rs.  The Key and Nip19
variants are never produced by the embedded code paths and are omitted. -/
inductive Error where
  | Secp256k1 (e : SecpError)
  | ConditionsParseInvalidCondition
  | ConditionsParseNumeric
  | ConditionsValidation (e : ValidationError)
  | DelegationTagParse
deriving DecidableEq, Repr

/-- The size bound of a Rust u64. -/
def u64Size : Nat := 2 ^ 64

/-- Value of a decimal ASCII digit character, as accepted by Rust's
u64 from_str via char to_digit 10. -/
def digitVal? (c : Char) : Option Nat :=
  if '0' ≤ c ∧ c ≤ '9' then some (c.toNat - 48) else none

/-- Accumulating decimal parser over the digit characters.  Any non-digit
character aborts with none. -/
def parseDigitsAux : List Char → Nat → Option Nat
  | [], acc => some acc
  | c :: rest, acc =>
    match digitVal? c with
    | some d => parseDigitsAux rest (acc * 10 + d)
    | none => none

/-- Digit part of Rust's u64 from_str: at least one digit, all characters
digits, and the value must fit in a u64 (Rust reports overflow as a
ParseIntError; checking the final value is equivalent to Rust's stepwise
checked arithmetic because the accumulated value only grows). -/
def parseU64Core (t : List Char) : Option Nat :=
  match t with
  | [] => none
  | _ :: _ =>
    match parseDigitsAux t 0 with
    | some v => if v < u64Size then some v else none
    | none => none

/-- Embedding of Rust's u64 from_str: an optional leading plus sign followed
by one or more decimal digits.  A minus sign is not a digit and is rejected
by the core parser, as in Rust for unsigned types. -/
def parseU64 (s : List Char) : Option Nat :=
  match s with
  | [] => none
  | c :: rest => if c = '+' then parseU64Core rest else parseU64Core (c :: rest)

/-- Condition evaluate, from impl Condition -> fn evaluate in nip26.rs. -/
def Condition.evaluate (c : Condition) (ep : EventProperties) : Except ValidationError Unit :=
  match c with
  | .Kind k => if ep.kind ≠ k then .error .InvalidKind else .ok ()
  | .CreatedBefore t => if ep.created_time ≥ t then .error .CreatedTooLate else .ok ()
  | .CreatedAfter t => if ep.created_time ≤ t then .error .CreatedTooEarly else .ok ()

/-- Conditions evaluate, from impl Conditions -> fn evaluate: iterate the
stored conditions in order, stopping at the first failure. -/
def evaluateConditions : List Condition → EventProperties → Except ValidationError Unit
  | [], _ => .ok ()
  | c :: rest, ep =>
    match c.evaluate ep with
    | .ok _ => evaluateConditions rest ep
    | .error e => .error e

/-- The literal prefix of a kind condition. -/
def kindPre : List Char := ['k', 'i', 'n', 'd', '=']

/-- The shared literal stem of the two time conditions. -/
def createdAtPre : List Char := ['c', 'r', 'e', 'a', 't', 'e', 'd', '_', 'a', 't']

/-- The literal prefix of a created-before condition. -/
def beforePre : List Char := createdAtPre ++ ['<']

/-- The literal prefix of a created-after condition. -/
def afterPre : List Char := createdAtPre ++ ['>']

/-- Decimal rendering helper with explicit fuel so that it is structurally
recursive and kernel-computable. -/
def natToCharsAux : Nat → Nat → List Char
  | 0, _ => []
  | fuel + 1, n => if n = 0 then [] else natToCharsAux fuel (n / 10) ++ [Char.ofNat (n % 10 + 48)]

/-- Decimal rendering of a natural number, matching Rust's Display for u64:
no sign, no leading zeros, and 0 renders as the single digit 0. -/
def natToChars (n : Nat) : List Char :=
  if n = 0 then ['0'] else natToCharsAux n n

/-- Condition to_string, from impl ToString for Condition. -/
def condToString : Condition → List Char
  | .Kind k => kindPre ++ natToChars k
  | .CreatedBefore t => beforePre ++ natToChars t
  | .CreatedAfter t => afterPre ++ natToChars t

/-- Embedding of Rust str strip_prefix. -/
def stripPre : List Char → List Char → Option (List Char)
  | [], s => some s
  | _ :: _, [] => none
  | p :: ps, c :: cs => if p = c then stripPre ps cs else none

/-- Condition from_str, from impl FromStr for Condition: the three prefixes
are tried in source order, and the suffix is parsed as a u64. -/
def condFromStr (s : List Char) : Except Error Condition :=
  match stripPre kindPre s with
  | some rest =>
    match parseU64 rest with
    | some n => .ok (.Kind n)
    | none => .error .ConditionsParseNumeric
  | none =>
    match stripPre beforePre s with
    | some rest =>
      match parseU64 rest with
      | some n => .ok (.CreatedBefore n)
      | none => .error .ConditionsParseNumeric
    | none =>
      match stripPre afterPre s with
      | some rest =>
        match parseU64 rest with
        | some n => .ok (.CreatedAfter n)
        | none => .error .ConditionsParseNumeric
      | none => .error .ConditionsParseInvalidCondition

/-- Embedding of joining strings with an ampersand, from
impl ToString for Conditions (map to_string then join with the separator). -/
def joinAmp : List (List Char) → List Char
  | [] => []
  | [x] => x
  | x :: y :: ys => x ++ '&' :: joinAmp (y :: ys)

/-- Conditions to_string, from impl ToString for Conditions. -/
def condsToString (cs : List Condition) : List Char :=
  joinAmp (cs.map condToString)

/-- Embedding of Rust str split on an ampersand: on an empty input it yields
one empty segment, and every separator starts a new segment (so empty
segments are kept). -/
def splitAmp : List Char → List (List Char)
  | [] => [[]]
  | c :: rest =>
    if c = '&' then [] :: splitAmp rest
    else
      match splitAmp rest with
      | seg :: segs => (c :: seg) :: segs
      | [] => [[c]]

/-- Embedding of collecting an iterator of Results: parse each segment in
order and stop at the first failure. -/
def parseCondList : List (List Char) → Except Error (List Condition)
  | [] => .ok []
  | x :: xs =>
    match condFromStr x with
    | .ok c =>
      match parseCondList xs with
      | .ok cs => .ok (c :: cs)
      | .error e => .error e
    | .error e => .error e

/-- Conditions from_str, from impl FromStr for Conditions: the empty string
is the empty list, otherwise split on the ampersand and parse each segment. -/
def condsFromStr (s : List Char) : Except Error (List Condition) :=
  if s = [] then .ok [] else parseCondList (splitAmp s)

/-- The numeric payload of a condition. -/
def condValue : Condition → Nat
  | .Kind k => k
  | .CreatedBefore t => t
  | .CreatedAfter t => t

/-- An x-only public key of the external secp256k1 crate, as 32 bytes. -/
structure PubKey where
  bytes : List Nat
deriving DecidableEq, Repr

/-- A Schnorr signature of the external secp256k1 crate. -/
structure Signature where
  data : List Nat
deriving DecidableEq, Repr

/-- A delegator key pair: the secret key material together with the derived
x-only public key, from the Keys type of the key module. -/
structure Keys where
  sk : Nat
  pk : PubKey
deriving DecidableEq, Repr

/-- Delegation tag, from struct DelegationTag in nip26.rs. -/
structure DelegationTag where
  delegator_pubkey : PubKey
  conditions : List Condition
  signature : Signature
deriving DecidableEq, Repr

/-- One lowercase hexadecimal digit character. -/
def hexChar (d : Nat) : Char :=
  if d < 10 then Char.ofNat (d + 48) else Char.ofNat (d + 87)

/-- Lowercase hexadecimal rendering of one byte, high nibble first. -/
def byteToHex (b : Nat) : List Char :=
  [hexChar (b / 16), hexChar (b % 16)]

/-- Lowercase hexadecimal rendering of a public key, per spec section 6:
this is the Display format of the external x-only public key type. -/
def pubkeyHex (pk : PubKey) : List Char :=
  (pk.bytes.map byteToHex).flatten

/-- The literal token prefix nostr:delegation: including both separators. -/
def nostrPre : List Char :=
  ['n', 'o', 's', 't', 'r', ':', 'd', 'e', 'l', 'e', 'g', 'a', 't', 'i', 'o', 'n', ':']

/-- fn delegation_token: the canonical string that is hashed and signed. -/
def delegation_token (delegatee_pk : PubKey) (conditions : List Char) : List Char :=
  nostrPre ++ pubkeyHex delegatee_pk ++ ':' :: conditions

/-- fn sign_delegation, with the SHA-256 hash and the Schnorr signing
capability injected as parameters (spec section 6). -/
def sign_delegation (hash : List Char → List Nat) (schnorrSign : Keys → List Nat → Signature)
    (delegator_keys : Keys) (delegatee_pk : PubKey) (conditions : List Char) : Signature :=
  schnorrSign delegator_keys (hash (delegation_token delegatee_pk conditions))

/-- fn verify_delegation_signature, with the hash and the Schnorr
verification capability injected as parameters. -/
def verify_delegation_signature (hash : List Char → List Nat)
    (schnorrVerify : PubKey → Signature → List Nat → Except SecpError Unit)
    (delegator_public_key : PubKey) (signature : Signature)
    (delegatee_public_key : PubKey) (conditions : List Char) : Except SecpError Unit :=
  schnorrVerify delegator_public_key signature (hash (delegation_token delegatee_public_key conditions))

/-- The question-mark conversion applied to the result of Conditions
evaluate inside validate: a ValidationError is wrapped into the
ConditionsValidation variant of Error. -/
def liftValidation : Except ValidationError Unit → Except Error Unit
  | .ok _ => .ok ()
  | .error e => .error (.ConditionsValidation e)

/-- DelegationTag create: sign over the token built from the raw conditions
string, then parse the conditions and store the parsed form. -/
def DelegationTag.create (hash : List Char → List Nat)
    (schnorrSign : Keys → List Nat → Signature) (delegator_keys : Keys)
    (delegatee_pubkey : PubKey) (conditions_string : List Char) :
    Except Error DelegationTag :=
  let signature := sign_delegation hash schnorrSign delegator_keys delegatee_pubkey conditions_string
  match condsFromStr conditions_string with
  | .ok conditions => .ok ⟨delegator_keys.pk, conditions, signature⟩
  | .error e => .error e

/-- DelegationTag validate: verify the signature over the token rebuilt from
the re-serialized stored conditions; any verification failure collapses to
InvalidSignature; only then evaluate the conditions. -/
def DelegationTag.validate (hash : List Char → List Nat)
    (schnorrVerify : PubKey → Signature → List Nat → Except SecpError Unit)
    (tag : DelegationTag) (delegatee_pubkey : PubKey) (ep : EventProperties) :
    Except Error Unit :=
  match verify_delegation_signature hash schnorrVerify tag.delegator_pubkey tag.signature
      delegatee_pubkey (condsToString tag.conditions) with
  | .error _ => .error (.ConditionsValidation .InvalidSignature)
  | .ok _ => liftValidation (evaluateConditions tag.conditions ep)

/-- The literal keyword delegation. -/
def delegationKeyword : List Char := ['d', 'e', 'l', 'e', 'g', 'a', 't', 'i', 'o', 'n']

/-- impl TryFrom of a string vector for DelegationTag, with the external
public-key and signature parsers injected as parameters: check the length,
check the keyword, then parse the three remaining elements in order,
propagating their errors through the question-mark conversions. -/
def tryFromVec (parsePk : List Char → Except SecpError PubKey)
    (parseSig : List Char → Except SecpError Signature)
    (tag : List (List Char)) : Except Error DelegationTag :=
  match tag with
  | [t0, t1, t2, t3] =>
    if t0 ≠ delegationKeyword then .error .DelegationTagParse
    else
      match parsePk t1 with
      | .error e => .error (.Secp256k1 e)
      | .ok pk =>
        match condsFromStr t2 with
        | .error e => .error e
        | .ok cs =>
          match parseSig t3 with
          | .error e => .error (.Secp256k1 e)
          | .ok sig => .ok ⟨pk, cs, sig⟩
  | _ => .error .DelegationTagParse

/-- DelegationTag from_json, with the external JSON parser injected as a
parameter: any JSON-level failure becomes DelegationTagParse, and a parsed
string array is handed to the TryFrom conversion. -/
def from_json (jsonParse : List Char → Option (List (List Char)))
    (parsePk : List Char → Except SecpError PubKey)
    (parseSig : List Char → Except SecpError Signature)
    (s : List Char) : Except Error DelegationTag :=
  match jsonParse s with
  | none => .error .DelegationTagParse
  | some tag => tryFromVec parsePk parseSig tag

/-- Value of one hexadecimal digit character, lowercase letters only. -/
def hexVal? (c : Char) : Option Nat :=
  if '0' ≤ c ∧ c ≤ '9' then some (c.toNat - 48)
  else if 'a' ≤ c ∧ c ≤ 'f' then some (c.toNat - 87)
  else none

/-- Bytes of an even-length hexadecimal string. -/
def hexBytes? : List Char → Option (List Nat)
  | [] => some []
  | [_] => none
  | a :: b :: rest =>
    match hexVal? a, hexVal? b, hexBytes? rest with
    | some x, some y, some bs => some ((x * 16 + y) :: bs)
    | _, _, _ => none

/-- Modelled from the spec: section 6 fixes the textual encoding of public
keys of the external secp256k1 crate (not part of this repository) as 64
lowercase hexadecimal characters for 32 bytes; anything else fails. -/
def parsePubKeyHex (s : List Char) : Except SecpError PubKey :=
  if s.length = 64 then
    match hexBytes? s with
    | some bs => .ok ⟨bs⟩
    | none => .error (.err 0)
  else .error (.err 0)

/-- Modelled from the spec: section 6 fixes the textual encoding of
signatures of the external secp256k1 crate (not part of this repository) as
128 lowercase hexadecimal characters for 64 bytes; anything else fails. -/
def parseSigHex (s : List Char) : Except SecpError Signature :=
  if s.length = 128 then
    match hexBytes? s with
    | some bs => .ok ⟨bs⟩
    | none => .error (.err 0)
  else .error (.err 0)

/-- Whether a character is a lowercase hexadecimal digit. -/
def isLowerHex (c : Char) : Bool :=
  (Nat.ble 48 c.toNat && Nat.ble c.toNat 57) || (Nat.ble 97 c.toNat && Nat.ble c.toNat 102)

/-! ### Lemmas about decimal parsing and rendering -/

lemma digitVal?_ofNat_add : ∀ d < 10, digitVal? (Char.ofNat (d + 48)) = some d := by
  decide

lemma ofNat_add_ne_plus : ∀ d < 10, Char.ofNat (d + 48) ≠ '+' := by
  decide

lemma ofNat_add_ne_amp : ∀ d < 10, Char.ofNat (d + 48) ≠ '&' := by
  decide

lemma parseDigitsAux_map (ds : List Nat) (h : ∀ d ∈ ds, d < 10) :
    ∀ acc, parseDigitsAux (ds.map fun d => Char.ofNat (d + 48)) acc =
      some (ds.foldl (fun a d => a * 10 + d) acc) := by
  induction ds with
  | nil => intro acc; rfl
  | cons d ds ih =>
    intro acc
    have hd : d < 10 := h d (by simp)
    have hds : ∀ x ∈ ds, x < 10 := fun x hx => h x (by simp [hx])
    simp only [List.map_cons, parseDigitsAux, digitVal?_ofNat_add d hd, List.foldl_cons]
    exact ih hds (acc * 10 + d)

lemma foldr_eq_ofDigits : ∀ L : List Nat,
    L.foldr (fun d a => a * 10 + d) 0 = Nat.ofDigits 10 L := by
  intro L
  induction L with
  | nil => simp [Nat.ofDigits_nil]
  | cons d L ih =>
    simp only [List.foldr_cons, ih, Nat.ofDigits_cons]
    ring

lemma foldl_reverse_digits (n : Nat) :
    (Nat.digits 10 n).reverse.foldl (fun a d => a * 10 + d) 0 = n := by
  rw [List.foldl_reverse]
  have : (Nat.digits 10 n).foldr (fun d a => a * 10 + d) 0 = n := by
    rw [foldr_eq_ofDigits, Nat.ofDigits_digits]
  simpa using this

lemma natToCharsAux_eq : ∀ fuel n, n ≤ fuel →
    natToCharsAux fuel n = ((Nat.digits 10 n).reverse.map fun d => Char.ofNat (d + 48)) := by
  intro fuel
  induction fuel with
  | zero => intro n hn; interval_cases n; simp [natToCharsAux]
  | succ f ih =>
    intro n hn
    by_cases h0 : n = 0
    · simp [natToCharsAux, h0]
    · rw [natToCharsAux, if_neg h0, ih (n / 10) (by omega),
        Nat.digits_def' (by norm_num : 1 < 10) (Nat.pos_of_ne_zero h0)]
      simp

lemma natToChars_eq_map (n : Nat) (h0 : n ≠ 0) :
    natToChars n = ((Nat.digits 10 n).reverse.map fun d => Char.ofNat (d + 48)) := by
  rw [natToChars, if_neg h0, natToCharsAux_eq n n le_rfl]

lemma parseU64Core_map (ds : List Nat) (hne : ds ≠ []) (h10 : ∀ d ∈ ds, d < 10)
    (hv : ds.foldl (fun a d => a * 10 + d) 0 < u64Size) :
    parseU64Core (ds.map fun d => Char.ofNat (d + 48)) =
      some (ds.foldl (fun a d => a * 10 + d) 0) := by
  cases ds with
  | nil => exact absurd rfl hne
  | cons d ds =>
    have hp := parseDigitsAux_map (d :: ds) h10 0
    simp only [List.map_cons] at hp ⊢
    rw [parseU64Core, hp]
    have hv' : List.foldl (fun a d => a * 10 + d) d ds < u64Size := by simpa using hv
    simp [hv']

lemma parseU64_natToChars (n : Nat) (h : n < u64Size) :
    parseU64 (natToChars n) = some n := by
  by_cases h0 : n = 0
  · subst h0; decide
  · rw [natToChars_eq_map n h0]
    have hdig : ∀ d ∈ (Nat.digits 10 n).reverse, d < 10 := by
      intro d hd
      exact Nat.digits_lt_base (by norm_num) (List.mem_reverse.mp hd)
    have hnil : (Nat.digits 10 n).reverse ≠ [] := by
      simp [Nat.digits_ne_nil_iff_ne_zero.mpr h0]
    obtain ⟨d, ds, hds⟩ := List.exists_cons_of_ne_nil hnil
    rw [hds]
    have hd10 : d < 10 := hdig d (by rw [hds]; simp)
    have hds10 : ∀ x ∈ d :: ds, x < 10 := by rw [← hds]; exact hdig
    have hfold : (d :: ds).foldl (fun a d => a * 10 + d) 0 = n := by
      rw [← hds]; exact foldl_reverse_digits n
    simp only [List.map_cons, parseU64]
    rw [if_neg (ofNat_add_ne_plus d hd10)]
    have := parseU64Core_map (d :: ds) (by simp) hds10 (by rw [hfold]; exact h)
    simp only [List.map_cons] at this
    rw [this, hfold]

/-! ### Lemmas about prefixes -/

lemma stripPre_append : ∀ p r, stripPre p (p ++ r) = some r := by
  intro p
  induction p with
  | nil => intro r; rfl
  | cons a ps ih => intro r; simp [stripPre, ih]

lemma stripPre_eq_some : ∀ p s r, stripPre p s = some r ↔ s = p ++ r := by
  intro p
  induction p with
  | nil => intro s r; simp [stripPre]
  | cons a ps ih =>
    intro s r
    cases s with
    | nil => simp [stripPre]
    | cons b bs =>
      by_cases hab : a = b
      · subst hab; simp [stripPre, ih]
      · simp [stripPre, hab, Ne.symm hab]

lemma stripPre_append_both : ∀ p q s, stripPre (p ++ q) (p ++ s) = stripPre q s := by
  intro p
  induction p with
  | nil => intro q s; rfl
  | cons a ps ih => intro q s; simp [stripPre, ih]

lemma stripPre_head_ne (a b : Char) (ps cs : List Char) (h : a ≠ b) :
    stripPre (a :: ps) (b :: cs) = none := by
  simp [stripPre, h]

lemma stripPre_none_iff (p s : List Char) :
    stripPre p s = none ↔ ∀ r, s ≠ p ++ r := by
  constructor
  · intro h r hr
    rw [← stripPre_eq_some p s r] at hr
    rw [h] at hr
    exact Option.noConfusion hr
  · intro h
    cases hs : stripPre p s with
    | none => rfl
    | some r => exact absurd ((stripPre_eq_some p s r).mp hs) (h r)

/-! ### Lemmas about single-condition parse and format -/

lemma stripPre_kindPre_before (x : List Char) : stripPre kindPre (beforePre ++ x) = none :=
  stripPre_head_ne 'k' 'c' _ _ (by decide)

lemma stripPre_kindPre_after (x : List Char) : stripPre kindPre (afterPre ++ x) = none :=
  stripPre_head_ne 'k' 'c' _ _ (by decide)

lemma stripPre_before_after (x : List Char) : stripPre beforePre (afterPre ++ x) = none := by
  rw [show afterPre ++ x = createdAtPre ++ ('>' :: x) by simp [afterPre],
    show beforePre = createdAtPre ++ ['<'] from rfl, stripPre_append_both]
  exact stripPre_head_ne '<' '>' [] x (by decide)

lemma condFromStr_kindPre (r : List Char) :
    condFromStr (kindPre ++ r) =
      match parseU64 r with
      | some n => .ok (.Kind n)
      | none => .error .ConditionsParseNumeric := by
  simp only [condFromStr, stripPre_append]

lemma condFromStr_beforePre (r : List Char) :
    condFromStr (beforePre ++ r) =
      match parseU64 r with
      | some n => .ok (.CreatedBefore n)
      | none => .error .ConditionsParseNumeric := by
  simp only [condFromStr, stripPre_kindPre_before, stripPre_append]

lemma condFromStr_afterPre (r : List Char) :
    condFromStr (afterPre ++ r) =
      match parseU64 r with
      | some n => .ok (.CreatedAfter n)
      | none => .error .ConditionsParseNumeric := by
  simp only [condFromStr, stripPre_kindPre_after, stripPre_before_after, stripPre_append]

lemma condFromStr_no_pre (s : List Char) (h1 : ∀ r, s ≠ kindPre ++ r)
    (h2 : ∀ r, s ≠ beforePre ++ r) (h3 : ∀ r, s ≠ afterPre ++ r) :
    condFromStr s = .error .ConditionsParseInvalidCondition := by
  simp only [condFromStr, (stripPre_none_iff kindPre s).mpr h1,
    (stripPre_none_iff beforePre s).mpr h2, (stripPre_none_iff afterPre s).mpr h3]

lemma condFromStr_condToString (c : Condition) (h : condValue c < u64Size) :
    condFromStr (condToString c) = .ok c := by
  cases c with
  | Kind k =>
    rw [condToString, condFromStr_kindPre, parseU64_natToChars k h]
  | CreatedBefore t =>
    rw [condToString, condFromStr_beforePre, parseU64_natToChars t h]
  | CreatedAfter t =>
    rw [condToString, condFromStr_afterPre, parseU64_natToChars t h]

/-! ### Lemmas about the ampersand join and split -/

lemma amp_not_mem_natToChars (n : Nat) : '&' ∉ natToChars n := by
  by_cases h0 : n = 0
  · subst h0; decide
  · rw [natToChars_eq_map n h0]
    intro hmem
    simp only [List.mem_map] at hmem
    obtain ⟨d, hd, heq⟩ := hmem
    exact ofNat_add_ne_amp d (Nat.digits_lt_base (by norm_num) (List.mem_reverse.mp hd)) heq

lemma amp_not_mem_condToString (c : Condition) : '&' ∉ condToString c := by
  cases c with
  | Kind k =>
    intro h
    rcases List.mem_append.mp h with h | h
    · revert h; decide
    · exact amp_not_mem_natToChars k h
  | CreatedBefore t =>
    intro h
    rcases List.mem_append.mp h with h | h
    · revert h; decide
    · exact amp_not_mem_natToChars t h
  | CreatedAfter t =>
    intro h
    rcases List.mem_append.mp h with h | h
    · revert h; decide
    · exact amp_not_mem_natToChars t h

lemma condToString_ne_nil (c : Condition) : condToString c ≠ [] := by
  cases c <;> simp [condToString, kindPre, beforePre, afterPre, createdAtPre]

lemma splitAmp_no_amp (a : List Char) (h : '&' ∉ a) : splitAmp a = [a] := by
  induction a with
  | nil => rfl
  | cons c cs ih =>
    have hc : c ≠ '&' := fun hh => h (by simp [hh])
    have hcs : '&' ∉ cs := fun hh => h (by simp [hh])
    simp [splitAmp, hc, ih hcs]

lemma splitAmp_append (a b : List Char) (h : '&' ∉ a) :
    splitAmp (a ++ '&' :: b) = a :: splitAmp b := by
  induction a with
  | nil => simp [splitAmp]
  | cons c cs ih =>
    have hc : c ≠ '&' := fun hh => h (by simp [hh])
    have hcs : '&' ∉ cs := fun hh => h (by simp [hh])
    simp [splitAmp, hc, ih hcs]

lemma condsToString_ne_nil (c : Condition) (rest : List Condition) :
    condsToString (c :: rest) ≠ [] := by
  cases rest with
  | nil => exact condToString_ne_nil c
  | cons c2 r2 =>
    show condToString c ++ '&' :: condsToString (c2 :: r2) ≠ []
    simp

lemma splitAmp_condsToString : ∀ cs : List Condition, cs ≠ [] →
    splitAmp (condsToString cs) = cs.map condToString := by
  intro cs
  induction cs with
  | nil => intro h; exact absurd rfl h
  | cons c rest ih =>
    intro _
    cases rest with
    | nil => exact splitAmp_no_amp _ (amp_not_mem_condToString c)
    | cons c2 r2 =>
      show splitAmp (condToString c ++ '&' :: condsToString (c2 :: r2)) = _
      rw [splitAmp_append _ _ (amp_not_mem_condToString c), ih (by simp)]
      rfl

lemma parseCondList_map (cs : List Condition) (h : ∀ c ∈ cs, condValue c < u64Size) :
    parseCondList (cs.map condToString) = .ok cs := by
  induction cs with
  | nil => rfl
  | cons c rest ih =>
    have h1 : condValue c < u64Size := h c (by simp)
    have h2 := ih fun x hx => h x (by simp [hx])
    simp [parseCondList, condFromStr_condToString c h1, h2]

lemma condsFromStr_condsToString (cs : List Condition)
    (h : ∀ c ∈ cs, condValue c < u64Size) :
    condsFromStr (condsToString cs) = .ok cs := by
  cases cs with
  | nil => rfl
  | cons c rest =>
    rw [condsFromStr, if_neg (condsToString_ne_nil c rest),
      splitAmp_condsToString _ (by simp), parseCondList_map _ h]

/-! ### Lemmas about condition evaluation -/

lemma evaluateConditions_ok_iff (cs : List Condition) (ep : EventProperties) :
    evaluateConditions cs ep = .ok () ↔ ∀ c ∈ cs, c.evaluate ep = .ok () := by
  induction cs with
  | nil => simp [evaluateConditions]
  | cons c rest ih =>
    cases hc : c.evaluate ep with
    | ok u =>
      cases u
      simp [evaluateConditions, hc, ih]
    | error e =>
      constructor
      · intro h
        rw [evaluateConditions, hc] at h
        exact Except.noConfusion h
      · intro h
        have := h c (by simp)
        rw [hc] at this
        exact Except.noConfusion this

lemma evaluateConditions_first_error : ∀ (pre : List Condition) (c : Condition)
    (post : List Condition) (e : ValidationError) (ep : EventProperties),
    (∀ c' ∈ pre, c'.evaluate ep = .ok ()) → c.evaluate ep = .error e →
    evaluateConditions (pre ++ c :: post) ep = .error e := by
  intro pre
  induction pre with
  | nil =>
    intro c post e ep _ hc
    rw [List.nil_append, evaluateConditions, hc]
  | cons p ps ih =>
    intro c post e ep hpre hc
    have hp : p.evaluate ep = .ok () := hpre p (by simp)
    rw [List.cons_append, evaluateConditions, hp]
    exact ih c post e ep (fun x hx => hpre x (by simp [hx])) hc

/-! ### Lemmas about the hexadecimal key rendering and the token -/

lemma hexChar_inj : ∀ a < 16, ∀ b < 16, hexChar a = hexChar b → a = b := by
  decide

lemma hexChar_isLowerHex : ∀ d < 16, isLowerHex (hexChar d) = true := by
  decide

lemma byteToHex_inj (a b : Nat) (ha : a < 256) (hb : b < 256)
    (h : byteToHex a = byteToHex b) : a = b := by
  simp only [byteToHex, List.cons.injEq, and_true] at h
  obtain ⟨h1, h2⟩ := h
  have e1 := hexChar_inj (a / 16) (by omega) (b / 16) (by omega) h1
  have e2 := hexChar_inj (a % 16) (by omega) (b % 16) (by omega) h2
  omega

lemma flatten_byteToHex_length : ∀ bs : List Nat,
    ((bs.map byteToHex).flatten).length = 2 * bs.length := by
  intro bs
  induction bs with
  | nil => rfl
  | cons b rest ih =>
    simp only [List.map_cons, List.flatten_cons, List.length_append, ih, byteToHex]
    simp
    omega

lemma pubkeyHex_length (pk : PubKey) : (pubkeyHex pk).length = 2 * pk.bytes.length :=
  flatten_byteToHex_length pk.bytes

lemma mapHex_flatten_inj : ∀ xs ys : List Nat, (∀ b ∈ xs, b < 256) → (∀ b ∈ ys, b < 256) →
    xs.length = ys.length →
    (xs.map byteToHex).flatten = (ys.map byteToHex).flatten → xs = ys := by
  intro xs
  induction xs with
  | nil =>
    intro ys _ _ hl _
    cases ys with
    | nil => rfl
    | cons y ys => simp at hl
  | cons x xs ih =>
    intro ys hx hy hl hf
    cases ys with
    | nil => simp at hl
    | cons y ys =>
      simp only [List.map_cons, List.flatten_cons] at hf
      obtain ⟨h1, h2⟩ := List.append_inj hf rfl
      have hxy : x = y := byteToHex_inj x y (hx x (by simp)) (hy y (by simp)) h1
      subst hxy
      rw [ih ys (fun b hb => hx b (by simp [hb])) (fun b hb => hy b (by simp [hb]))
        (by simpa using hl) h2]

lemma pubkeyHex_chars_lower (pk : PubKey) (hB : ∀ b ∈ pk.bytes, b < 256) :
    ∀ ch ∈ pubkeyHex pk, isLowerHex ch = true := by
  intro ch hch
  rw [pubkeyHex] at hch
  simp only [List.mem_flatten, List.mem_map] at hch
  obtain ⟨l, ⟨b, hb, hl⟩, hmem⟩ := hch
  subst hl
  have hb256 := hB b hb
  simp only [byteToHex, List.mem_cons, List.not_mem_nil, or_false] at hmem
  rcases hmem with h | h
  · subst h; exact hexChar_isLowerHex (b / 16) (by omega)
  · subst h; exact hexChar_isLowerHex (b % 16) (by omega)

lemma delegation_token_inj_pk (pk pk' : PubKey) (s s' : List Char)
    (h32 : pk.bytes.length = 32) (h32' : pk'.bytes.length = 32)
    (hB : ∀ b ∈ pk.bytes, b < 256) (hB' : ∀ b ∈ pk'.bytes, b < 256)
    (h : delegation_token pk s = delegation_token pk' s') : pk = pk' := by
  have h' : pubkeyHex pk ++ ':' :: s = pubkeyHex pk' ++ ':' :: s' := by
    simp only [delegation_token, List.append_assoc] at h
    simpa using h
  have hlen : (pubkeyHex pk).length = (pubkeyHex pk').length := by
    rw [pubkeyHex_length, pubkeyHex_length, h32, h32']
  obtain ⟨h1, _⟩ := List.append_inj h' hlen
  have hbytes := mapHex_flatten_inj pk.bytes pk'.bytes hB hB' (by rw [h32, h32']) h1
  cases pk
  cases pk'
  simpa using hbytes

/-! ### A concrete toy signing capability used by the witnesses -/

/-- A toy injective hash used only to instantiate the capability-parametric
theorems at concrete inputs. -/
def toyHash (s : List Char) : List Nat := s.map Char.toNat

/-- A toy Schnorr signer: the signature records the secret key and the
message. -/
def toySign (k : Keys) (m : List Nat) : Signature := ⟨k.sk :: m⟩

/-- A toy Schnorr verifier accepting exactly the signatures of toySign over
the same message. -/
def toyVerify (_pk : PubKey) (sig : Signature) (m : List Nat) : Except SecpError Unit :=
  match sig.data with
  | [] => .error (.err 1)
  | _ :: rest => if rest = m then .ok () else .error (.err 2)

lemma toyHash_inj : ∀ a b : List Char, toyHash a = toyHash b → a = b := by
  intro a
  induction a with
  | nil =>
    intro b h
    cases b with
    | nil => rfl
    | cons d ds => simp [toyHash] at h
  | cons c cs ih =>
    intro b h
    cases b with
    | nil => simp [toyHash] at h
    | cons d ds =>
      simp only [toyHash, List.map_cons, List.cons.injEq] at h
      obtain ⟨h1, h2⟩ := h
      have hcd : c = d := by
        have := congrArg Char.ofNat h1
        rwa [Char.ofNat_toNat, Char.ofNat_toNat] at this
      rw [hcd, ih ds (by simpa [toyHash] using h2)]

lemma toyVerify_sound : ∀ (k : Keys) (m m' : List Nat),
    toyVerify k.pk (toySign k m) m' = .ok () → m' = m := by
  intro k m m' h
  simp only [toyVerify, toySign] at h
  by_cases hm : m = m'
  · exact hm.symm
  · rw [if_neg hm] at h
    exact Except.noConfusion h

lemma toyVerify_complete : ∀ (k : Keys) (m : List Nat),
    toyVerify k.pk (toySign k m) m = .ok () := by
  intro k m
  simp [toyVerify, toySign]

/-- Concrete 32-byte delegatee key used in witnesses. -/
def pkA : PubKey := ⟨List.replicate 32 1⟩

/-- A second, different concrete 32-byte delegatee key. -/
def pkB : PubKey := ⟨2 :: List.replicate 31 1⟩

/-- Concrete delegator keys used in witnesses. -/
def keys₀ : Keys := ⟨5, ⟨List.replicate 32 3⟩⟩

/-- Concrete event properties used in witnesses. -/
def ep₀ : EventProperties := ⟨1, 1500⟩

/-- The conditions string kind=1. -/
def sKind1 : List Char := ['k', 'i', 'n', 'd', '=', '1']

/-- The accepted but non-canonical conditions string kind=+1. -/
def sPlus : List Char := ['k', 'i', 'n', 'd', '=', '+', '1']

/-- The tag created by the toy capabilities over sKind1 for delegatee pkA. -/
def tagA : DelegationTag :=
  ⟨keys₀.pk, [.Kind 1], toySign keys₀ (toyHash (delegation_token pkA sKind1))⟩

/-- The tag created by the toy capabilities over the non-canonical string
sPlus for delegatee pkA. -/
def tagPlus : DelegationTag :=
  ⟨keys₀.pk, [.Kind 1], toySign keys₀ (toyHash (delegation_token pkA sPlus))⟩

/-- A tag whose signature the toy verifier always rejects. -/
def tagBad : DelegationTag := ⟨keys₀.pk, [.Kind 1], ⟨[]⟩⟩

/-! ### Lemmas about list-of-segment parsing -/

lemma parseCondList_first_error : ∀ (pre : List (List Char)) (x : List Char)
    (post : List (List Char)) (e : Error),
    (∀ y ∈ pre, ∃ c, condFromStr y = .ok c) → condFromStr x = .error e →
    parseCondList (pre ++ x :: post) = .error e := by
  intro pre
  induction pre with
  | nil =>
    intro x post e _ hx
    simp [parseCondList, hx]
  | cons y ys ih =>
    intro x post e hpre hx
    obtain ⟨c, hc⟩ := hpre y (by simp)
    rw [List.cons_append, parseCondList, hc,
      ih x post e (fun z hz => hpre z (by simp [hz])) hx]

lemma parseCondList_ok_all : ∀ (segs : List (List Char)) (cs : List Condition),
    parseCondList segs = .ok cs → ∀ y ∈ segs, ∃ c, condFromStr y = .ok c := by
  intro segs
  induction segs with
  | nil =>
    intro cs _ y hy
    simp at hy
  | cons x xs ih =>
    intro cs h y hy
    cases hx : condFromStr x with
    | error e =>
      rw [parseCondList, hx] at h
      exact Except.noConfusion h
    | ok c =>
      rcases List.mem_cons.mp hy with rfl | hy'
      · exact ⟨c, hx⟩
      · cases hxs : parseCondList xs with
        | error e =>
          rw [parseCondList, hx, hxs] at h
          exact Except.noConfusion h
        | ok cs2 => exact ih cs2 hxs y hy'

/-! ### The claims -/

/-- C1: evaluating a conditions list succeeds exactly when every condition's
predicate holds (vacuously for the empty list); otherwise the result is the
specific failure of the first failing condition in stored order, independent
of everything after it; and the per-variant predicates are exact, including
the strict boundary behaviour of the two time conditions. -/
theorem conditions_evaluate_spec (cs : List Condition) (ep : EventProperties) :
    (evaluateConditions cs ep = .ok () ↔ ∀ c ∈ cs, c.evaluate ep = .ok ())
    ∧ (∀ pre c post e, cs = pre ++ c :: post →
        (∀ c' ∈ pre, c'.evaluate ep = .ok ()) → c.evaluate ep = .error e →
        evaluateConditions cs ep = .error e)
    ∧ (∀ k, (ep.kind = k → (Condition.Kind k).evaluate ep = .ok ())
        ∧ (ep.kind ≠ k → (Condition.Kind k).evaluate ep = .error .InvalidKind))
    ∧ (∀ t, (ep.created_time < t → (Condition.CreatedBefore t).evaluate ep = .ok ())
        ∧ (¬ ep.created_time < t →
            (Condition.CreatedBefore t).evaluate ep = .error .CreatedTooLate))
    ∧ (∀ t, (ep.created_time > t → (Condition.CreatedAfter t).evaluate ep = .ok ())
        ∧ (¬ ep.created_time > t →
            (Condition.CreatedAfter t).evaluate ep = .error .CreatedTooEarly)) := by
  refine ⟨evaluateConditions_ok_iff cs ep, ?_, ?_, ?_, ?_⟩
  · intro pre c post e hcs hpre hc
    rw [hcs]
    exact evaluateConditions_first_error pre c post e ep hpre hc
  · intro k
    refine ⟨fun h => ?_, fun h => ?_⟩
    · simp only [Condition.evaluate]
      rw [if_neg (by simp [h])]
    · simp only [Condition.evaluate]
      rw [if_pos h]
  · intro t
    refine ⟨fun h => ?_, fun h => ?_⟩
    · simp only [Condition.evaluate]
      rw [if_neg (by omega)]
    · simp only [Condition.evaluate]
      rw [if_pos (by omega)]
  · intro t
    refine ⟨fun h => ?_, fun h => ?_⟩
    · simp only [Condition.evaluate]
      rw [if_neg (by omega)]
    · simp only [Condition.evaluate]
      rw [if_pos (by omega)]

/-- Witness for C1 at the spec's first-failure example: kind=3 and kind=4
together are unsatisfiable and the reported failure is InvalidKind. -/
theorem conditions_evaluate_spec_witness :
    evaluateConditions [Condition.Kind 3, Condition.Kind 4] ⟨3, 0⟩ = .error .InvalidKind :=
  (conditions_evaluate_spec [Condition.Kind 3, Condition.Kind 4] ⟨3, 0⟩).2.1
    [Condition.Kind 3] (Condition.Kind 4) [] .InvalidKind rfl (by decide) (by decide)

/-- C2: for every valid conditions list, parsing the formatted text yields
the list back exactly and in order, and the empty list formats to the empty
string. -/
theorem conditions_roundtrip (cs : List Condition)
    (h : ∀ c ∈ cs, condValue c < u64Size) :
    condsFromStr (condsToString cs) = .ok cs ∧ condsToString [] = ([] : List Char) :=
  ⟨condsFromStr_condsToString cs h, rfl⟩

/-- Witness for C2 at a three-condition list. -/
theorem conditions_roundtrip_witness :
    condsFromStr (condsToString [Condition.Kind 1, Condition.CreatedAfter 1676067553,
      Condition.CreatedBefore 1678659553]) =
      .ok [Condition.Kind 1, Condition.CreatedAfter 1676067553,
        Condition.CreatedBefore 1678659553] :=
  (conditions_roundtrip _ (by decide)).1

/-- C3: validate first verifies the signature over the token re-derived from
the re-serialized stored conditions; every verification failure collapses to
the single InvalidSignature outcome regardless of the event properties, and
on verification success the result is exactly the verdict of evaluating the
stored conditions, unchanged up to the error-wrapping conversion. -/
theorem validate_signature_gate (hash : List Char → List Nat)
    (schnorrVerify : PubKey → Signature → List Nat → Except SecpError Unit)
    (tag : DelegationTag) (dpk : PubKey) (ep : EventProperties) :
    (∀ e, verify_delegation_signature hash schnorrVerify tag.delegator_pubkey tag.signature
        dpk (condsToString tag.conditions) = .error e →
      tag.validate hash schnorrVerify dpk ep = .error (.ConditionsValidation .InvalidSignature))
    ∧ (verify_delegation_signature hash schnorrVerify tag.delegator_pubkey tag.signature
        dpk (condsToString tag.conditions) = .ok () →
      tag.validate hash schnorrVerify dpk ep =
        liftValidation (evaluateConditions tag.conditions ep)) := by
  constructor
  · intro e he
    simp only [DelegationTag.validate]
    rw [he]
  · intro hok
    simp only [DelegationTag.validate]
    rw [hok]

/-- Witness for C3: a tag with a rejected signature validates to
InvalidSignature. -/
theorem validate_signature_gate_witness :
    tagBad.validate toyHash toyVerify pkA ep₀ =
      .error (.ConditionsValidation .InvalidSignature) :=
  (validate_signature_gate toyHash toyVerify tagBad pkA ep₀).1 (.err 1) (by decide)

/-- C4: the delegation token is exactly the fixed prefix nostr:delegation:
followed by the 64-character lowercase hexadecimal delegatee key, a colon and
the conditions text, and both signing and verification hash exactly this
character sequence. -/
theorem delegation_token_format (pk : PubKey) (c : List Char)
    (h32 : pk.bytes.length = 32) (hB : ∀ b ∈ pk.bytes, b < 256) :
    delegation_token pk c = nostrPre ++ pubkeyHex pk ++ ':' :: c
    ∧ (pubkeyHex pk).length = 64
    ∧ (∀ ch ∈ pubkeyHex pk, isLowerHex ch = true)
    ∧ (∀ (hash : List Char → List Nat) (schnorrSign : Keys → List Nat → Signature)
        (keys : Keys),
        sign_delegation hash schnorrSign keys pk c =
          schnorrSign keys (hash (delegation_token pk c)))
    ∧ (∀ (hash : List Char → List Nat)
        (schnorrVerify : PubKey → Signature → List Nat → Except SecpError Unit)
        (dpk : PubKey) (sig : Signature),
        verify_delegation_signature hash schnorrVerify dpk sig pk c =
          schnorrVerify dpk sig (hash (delegation_token pk c))) := by
  refine ⟨rfl, ?_, pubkeyHex_chars_lower pk hB, fun _ _ _ => rfl, fun _ _ _ _ => rfl⟩
  rw [pubkeyHex_length, h32]

/-- Witness for C4 at a concrete 32-byte key. -/
theorem delegation_token_format_witness : (pubkeyHex pkA).length = 64 :=
  (delegation_token_format pkA sKind1 (by decide) (by decide)).2.1

/-- C5: a tag created for delegatee key pk fails validation with
InvalidSignature against any different delegatee key, assuming the injected
hash is collision-free and the injected Schnorr verifier accepts a signature
only for the signed message. -/
theorem validate_wrong_delegatee_fails (hash : List Char → List Nat)
    (schnorrSign : Keys → List Nat → Signature)
    (schnorrVerify : PubKey → Signature → List Nat → Except SecpError Unit)
    (hhash : ∀ a b, hash a = hash b → a = b)
    (hsound : ∀ k m m', schnorrVerify k.pk (schnorrSign k m) m' = .ok () → m' = m)
    (keys : Keys) (pk pk' : PubKey) (s : List Char) (tag : DelegationTag)
    (ep : EventProperties)
    (h32 : pk.bytes.length = 32) (h32' : pk'.bytes.length = 32)
    (hB : ∀ b ∈ pk.bytes, b < 256) (hB' : ∀ b ∈ pk'.bytes, b < 256)
    (hcreate : DelegationTag.create hash schnorrSign keys pk s = .ok tag)
    (hne : pk' ≠ pk) :
    tag.validate hash schnorrVerify pk' ep =
      .error (.ConditionsValidation .InvalidSignature) := by
  cases hcs : condsFromStr s with
  | error e =>
    simp only [DelegationTag.create, hcs] at hcreate
    exact Except.noConfusion hcreate
  | ok cs =>
    simp only [DelegationTag.create, hcs] at hcreate
    injection hcreate with h
    subst h
    cases hv : schnorrVerify keys.pk (schnorrSign keys (hash (delegation_token pk s)))
        (hash (delegation_token pk' (condsToString cs))) with
    | error e =>
      simp [DelegationTag.validate, verify_delegation_signature, sign_delegation, hv]
    | ok u =>
      cases u
      exfalso
      have hm := hsound keys (hash (delegation_token pk s))
        (hash (delegation_token pk' (condsToString cs))) hv
      have htok := hhash _ _ hm
      exact hne (delegation_token_inj_pk pk' pk _ _ h32' h32 hB' hB htok)

/-- Witness for C5: the concrete tag for delegatee pkA fails against pkB. -/
theorem validate_wrong_delegatee_fails_witness :
    tagA.validate toyHash toyVerify pkB ep₀ =
      .error (.ConditionsValidation .InvalidSignature) :=
  validate_wrong_delegatee_fails toyHash toySign toyVerify toyHash_inj toyVerify_sound
    keys₀ pkA pkB sKind1 tagA ep₀ (by decide) (by decide) (by decide) (by decide)
    (by decide) (by decide)

/-- C6 counterexample: the accepted conditions string kind=+1 re-serializes
to kind=1, so format after parse is not the identity on accepted strings,
and the tag freshly created from it fails validation under a verifier that
accepts the signer's signatures, because create signed the raw string while
validate rebuilds the token from the re-serialized conditions. -/
theorem conditions_noncanonical_counterexample :
    condsFromStr sPlus = .ok [Condition.Kind 1]
    ∧ condsToString [Condition.Kind 1] ≠ sPlus
    ∧ DelegationTag.create toyHash toySign keys₀ pkA sPlus = .ok tagPlus
    ∧ tagPlus.validate toyHash toyVerify pkA ep₀ =
        .error (.ConditionsValidation .InvalidSignature) :=
  ⟨by decide, by decide, by decide, by decide⟩

/-- C6 amended: for every conditions string s in the canonical image of the
serializer (s equals format of a valid conditions list cs), parsing s yields
cs back, and a tag freshly created from s validates to exactly the verdict
of evaluating cs, under a verifier that accepts the signer's signatures,
because create and validate then hash the same token string. -/
theorem canonical_create_validate (hash : List Char → List Nat)
    (schnorrSign : Keys → List Nat → Signature)
    (schnorrVerify : PubKey → Signature → List Nat → Except SecpError Unit)
    (hcomplete : ∀ k m, schnorrVerify k.pk (schnorrSign k m) m = .ok ())
    (keys : Keys) (dpk : PubKey) (cs : List Condition)
    (hb : ∀ c ∈ cs, condValue c < u64Size) (s : List Char) (hs : s = condsToString cs)
    (tag : DelegationTag) (ep : EventProperties)
    (hcreate : DelegationTag.create hash schnorrSign keys dpk s = .ok tag) :
    condsFromStr s = .ok cs
    ∧ tag.validate hash schnorrVerify dpk ep =
        liftValidation (evaluateConditions cs ep) := by
  have hparse : condsFromStr s = .ok cs := by
    rw [hs]
    exact condsFromStr_condsToString cs hb
  refine ⟨hparse, ?_⟩
  simp only [DelegationTag.create, hparse] at hcreate
  injection hcreate with h
  subst h
  simp only [DelegationTag.validate, verify_delegation_signature, sign_delegation]
  rw [← hs, hcomplete keys (hash (delegation_token dpk s))]

/-- Witness for the amended C6 at the canonical string kind=1. -/
theorem canonical_create_validate_witness :
    condsFromStr sKind1 = .ok [Condition.Kind 1]
    ∧ tagA.validate toyHash toyVerify pkA ep₀ =
        liftValidation (evaluateConditions [Condition.Kind 1] ep₀) :=
  canonical_create_validate toyHash toySign toyVerify toyVerify_complete keys₀ pkA
    [Condition.Kind 1] (by decide) sKind1 (by decide) tagA ep₀ (by decide)

/-- C7: single-condition parsing succeeds exactly on the three prefixed
forms with a u64 suffix; a matched prefix with a bad suffix gives the
numeric parse error; no matching prefix gives the invalid-condition error;
and formatting is inverted by parsing. -/
theorem condition_parse_spec :
    (∀ r n, parseU64 r = some n → condFromStr (kindPre ++ r) = .ok (.Kind n))
    ∧ (∀ r, parseU64 r = none → condFromStr (kindPre ++ r) = .error .ConditionsParseNumeric)
    ∧ (∀ r n, parseU64 r = some n → condFromStr (beforePre ++ r) = .ok (.CreatedBefore n))
    ∧ (∀ r, parseU64 r = none →
        condFromStr (beforePre ++ r) = .error .ConditionsParseNumeric)
    ∧ (∀ r n, parseU64 r = some n → condFromStr (afterPre ++ r) = .ok (.CreatedAfter n))
    ∧ (∀ r, parseU64 r = none →
        condFromStr (afterPre ++ r) = .error .ConditionsParseNumeric)
    ∧ (∀ s, (∀ r, s ≠ kindPre ++ r) → (∀ r, s ≠ beforePre ++ r) →
        (∀ r, s ≠ afterPre ++ r) →
        condFromStr s = .error .ConditionsParseInvalidCondition)
    ∧ (∀ c, condValue c < u64Size → condFromStr (condToString c) = .ok c) := by
  refine ⟨?_, ?_, ?_, ?_, ?_, ?_, condFromStr_no_pre, condFromStr_condToString⟩
  · intro r n h
    rw [condFromStr_kindPre, h]
  · intro r h
    rw [condFromStr_kindPre, h]
  · intro r n h
    rw [condFromStr_beforePre, h]
  · intro r h
    rw [condFromStr_beforePre, h]
  · intro r n h
    rw [condFromStr_afterPre, h]
  · intro r h
    rw [condFromStr_afterPre, h]

/-- Witness for C7: the format of Kind 7 parses back to Kind 7. -/
theorem condition_parse_spec_witness :
    condFromStr (condToString (Condition.Kind 7)) = .ok (Condition.Kind 7) :=
  condition_parse_spec.2.2.2.2.2.2.2 (Condition.Kind 7) (by decide)

/-- C8: parsing a conditions string maps the empty string to the empty list,
splits every non-empty string on the ampersand and parses the segments in
order, aborts with the error of the first failing segment and no partial
result, and in particular any input with an empty segment fails. -/
theorem conditions_parse_split_spec :
    condsFromStr [] = .ok []
    ∧ (∀ s, s ≠ [] → condsFromStr s = parseCondList (splitAmp s))
    ∧ (∀ s pre x post e, s ≠ [] → splitAmp s = pre ++ x :: post →
        (∀ y ∈ pre, ∃ c, condFromStr y = .ok c) → condFromStr x = .error e →
        condsFromStr s = .error e)
    ∧ (∀ s, s ≠ [] → [] ∈ splitAmp s → ∃ e, condsFromStr s = .error e) := by
  refine ⟨rfl, ?_, ?_, ?_⟩
  · intro s h
    rw [condsFromStr, if_neg h]
  · intro s pre x post e hs hsplit hpre hx
    rw [condsFromStr, if_neg hs, hsplit]
    exact parseCondList_first_error pre x post e hpre hx
  · intro s hs hmem
    cases hp : condsFromStr s with
    | error e => exact ⟨e, rfl⟩
    | ok cs =>
      exfalso
      rw [condsFromStr, if_neg hs] at hp
      obtain ⟨c, hc⟩ := parseCondList_ok_all _ _ hp [] hmem
      rw [show condFromStr [] = .error .ConditionsParseInvalidCondition from rfl] at hc
      exact Except.noConfusion hc

/-- Witness for C8: the input consisting of a single ampersand has an empty
first segment and fails with the invalid-condition error. -/
theorem conditions_parse_split_spec_witness :
    condsFromStr ['&'] = .error .ConditionsParseInvalidCondition :=
  conditions_parse_split_spec.2.2.1 ['&'] [] [] [[]] .ConditionsParseInvalidCondition
    (by decide) (by decide) (by simp) (by decide)

/-- C9 counterexample: a 4-element tag array whose second element is not a
valid public key fails with the Secp256k1 variant carrying that element's
own parse error, not with DelegationTagParse, refuting the wrapping part of
the claim. -/
theorem tag_parse_error_counterexample :
    tryFromVec parsePubKeyHex parseSigHex [delegationKeyword, ['z'], [], ['z']] =
      .error (.Secp256k1 (.err 0))
    ∧ (Except.error (.Secp256k1 (.err 0)) : Except Error DelegationTag) ≠
        .error .DelegationTagParse :=
  ⟨by decide, by decide⟩

/-- C9 amended: deserialization fails with DelegationTagParse when the JSON
layer rejects the input, when the array length differs from 4, or when the
first element is not the delegation keyword; elements 2 to 4 are parsed as
delegator public key, conditions and signature in that order, and each
element's individual parse error is propagated as that parser's own error
variant, unwrapped; when all three parse, the tag is assembled from them. -/
theorem tag_deserialize_spec :
    (∀ jsonParse parsePk parseSig s, jsonParse s = none →
      from_json jsonParse parsePk parseSig s = .error .DelegationTagParse)
    ∧ (∀ jsonParse parsePk parseSig s v, jsonParse s = some v →
      from_json jsonParse parsePk parseSig s = tryFromVec parsePk parseSig v)
    ∧ (∀ parsePk parseSig v, v.length ≠ 4 →
      tryFromVec parsePk parseSig v = .error .DelegationTagParse)
    ∧ (∀ parsePk parseSig t0 t1 t2 t3, t0 ≠ delegationKeyword →
      tryFromVec parsePk parseSig [t0, t1, t2, t3] = .error .DelegationTagParse)
    ∧ (∀ parsePk parseSig t1 t2 t3 e, parsePk t1 = .error e →
      tryFromVec parsePk parseSig [delegationKeyword, t1, t2, t3] =
        .error (.Secp256k1 e))
    ∧ (∀ parsePk parseSig t1 t2 t3 pk e, parsePk t1 = .ok pk →
      condsFromStr t2 = .error e →
      tryFromVec parsePk parseSig [delegationKeyword, t1, t2, t3] = .error e)
    ∧ (∀ parsePk parseSig t1 t2 t3 pk cs e, parsePk t1 = .ok pk →
      condsFromStr t2 = .ok cs → parseSig t3 = .error e →
      tryFromVec parsePk parseSig [delegationKeyword, t1, t2, t3] =
        .error (.Secp256k1 e))
    ∧ (∀ parsePk parseSig t1 t2 t3 pk cs sig, parsePk t1 = .ok pk →
      condsFromStr t2 = .ok cs → parseSig t3 = .ok sig →
      tryFromVec parsePk parseSig [delegationKeyword, t1, t2, t3] =
        .ok ⟨pk, cs, sig⟩) := by
  refine ⟨?_, ?_, ?_, ?_, ?_, ?_, ?_, ?_⟩
  · intro jsonParse parsePk parseSig s h
    rw [from_json, h]
  · intro jsonParse parsePk parseSig s v h
    rw [from_json, h]
  · intro parsePk parseSig v hv
    rcases v with _ | ⟨a, _ | ⟨b, _ | ⟨c, _ | ⟨d, _ | ⟨e, rest⟩⟩⟩⟩⟩
    · rfl
    · rfl
    · rfl
    · rfl
    · simp at hv
    · rfl
  · intro parsePk parseSig t0 t1 t2 t3 h
    simp only [tryFromVec]
    rw [if_pos h]
  · intro parsePk parseSig t1 t2 t3 e h
    simp only [tryFromVec]
    rw [if_neg (fun hh => hh rfl), h]
  · intro parsePk parseSig t1 t2 t3 pk e hpk hconds
    simp only [tryFromVec]
    rw [if_neg (fun hh => hh rfl), hpk, hconds]
  · intro parsePk parseSig t1 t2 t3 pk cs e hpk hconds hsig
    simp only [tryFromVec]
    rw [if_neg (fun hh => hh rfl), hpk, hconds, hsig]
  · intro parsePk parseSig t1 t2 t3 pk cs sig hpk hconds hsig
    simp only [tryFromVec]
    rw [if_neg (fun hh => hh rfl), hpk, hconds, hsig]

/-- Witness for the amended C9: a 1-element array fails with
DelegationTagParse. -/
theorem tag_deserialize_spec_witness :
    tryFromVec parsePubKeyHex parseSigHex [[]] = .error .DelegationTagParse :=
  tag_deserialize_spec.2.2.1 parsePubKeyHex parseSigHex [[]] (by decide)

/-- C10: the numeric suffix parser accepts a leading plus sign and leading
zeros, so kind=+1 and kind=01 both parse to Kind 1 although the formatted
form of Kind 1 is kind=1, which differs from both inputs. -/
theorem numeric_parse_noncanonical :
    condFromStr ['k', 'i', 'n', 'd', '=', '+', '1'] = .ok (.Kind 1)
    ∧ condFromStr ['k', 'i', 'n', 'd', '=', '0', '1'] = .ok (.Kind 1)
    ∧ condToString (.Kind 1) = ['k', 'i', 'n', 'd', '=', '1']
    ∧ condToString (.Kind 1) ≠ ['k', 'i', 'n', 'd', '=', '+', '1']
    ∧ condToString (.Kind 1) ≠ ['k', 'i', 'n', 'd', '=', '0', '1'] :=
  ⟨by decide, by decide, by decide, by decide, by decide⟩
